import Mathlib

/-!
Verification of the table-extraction and Abbyy-markup serialization core of
the `taiger-ocr/tesseract` fork, comprising `src/api/tableextractor.cpp`
(`TessBaseAPI::ExtractTableJoints`, `TessBaseAPI::IsPointInsideTable`) and
`src/api/abbyyrenderer.cpp` (`TessBaseAPI::GetAbbyyText`).

The embedding models:
* geometric primitives (`cv::Point`, `cv::Rect`, `cv::boundingRect`,
  `cv::Rect::contains`) with their documented integer semantics;
* the contour-candidate filter loop of `ExtractTableJoints` (area threshold,
  joint-count threshold, offset translation) over the candidate data that the
  external OpenCV primitives deliver (contours, areas, bounding rectangles);
* the grid-coordinate accumulation pass (lines 189-224 of
  `abbyyrenderer.cpp`), the row/column index scan (lines 307-348), and the
  whole word-serialization loop of `GetAbbyyText` as a state machine that
  emits a list of markup tokens.  Each token corresponds to one contiguous
  burst of `abbyy_str <<` insertions in the source, and `render` maps each
  token to the exact text the source writes.
-/

namespace TaigerTess

/-- Integer point, modelling `cv::Point`. -/
structure Pt where
  x : Int
  y : Int
  deriving DecidableEq, Repr

/-- Integer rectangle, modelling `cv::Rect` (x, y, width, height). -/
structure CvRect where
  x : Int
  y : Int
  w : Int
  h : Int
  deriving DecidableEq, Repr

/-- Fold of `min` over a list of integers, seeded with `a`. -/
def foldMin (a : Int) (l : List Int) : Int := l.foldl min a

/-- Fold of `max` over a list of integers, seeded with `a`. -/
def foldMax (a : Int) (l : List Int) : Int := l.foldl max a

/-- Least x-coordinate of a point list (0 for the empty list, as in the
default-constructed `cv::Rect`). -/
def minXOf (pts : List Pt) : Int :=
  match pts with
  | [] => 0
  | p :: ps => foldMin p.x (ps.map Pt.x)

/-- Least y-coordinate of a point list. -/
def minYOf (pts : List Pt) : Int :=
  match pts with
  | [] => 0
  | p :: ps => foldMin p.y (ps.map Pt.y)

/-- Greatest x-coordinate of a point list. -/
def maxXOf (pts : List Pt) : Int :=
  match pts with
  | [] => 0
  | p :: ps => foldMax p.x (ps.map Pt.x)

/-- Greatest y-coordinate of a point list. -/
def maxYOf (pts : List Pt) : Int :=
  match pts with
  | [] => 0
  | p :: ps => foldMax p.y (ps.map Pt.y)

/-- Model of `cv::boundingRect` on a list of integer points: the minimal
up-right rectangle containing all the points, with
`width = max x - min x + 1` and `height = max y - min y + 1`; the empty list
gives the default (all-zero) rectangle. -/
def boundingRect (pts : List Pt) : CvRect :=
  match pts with
  | [] => ⟨0, 0, 0, 0⟩
  | _ :: _ => ⟨minXOf pts, minYOf pts, maxXOf pts - minXOf pts + 1,
               maxYOf pts - minYOf pts + 1⟩

/-- Model of `cv::Rect::contains`:
`r.x <= p.x && p.x < r.x + r.width && r.y <= p.y && p.y < r.y + r.height`. -/
def rectContains (r : CvRect) (p : Pt) : Bool :=
  decide (r.x ≤ p.x) && decide (p.x < r.x + r.w) &&
  decide (r.y ≤ p.y) && decide (p.y < r.y + r.h)

/-- One table region: the list of joint contours (point groups) recorded for
one accepted candidate, in full-page coordinates. -/
abbrev Region := List (List Pt)

/-- The `Joint` result type of `ExtractTableJoints`: one `Region` per
accepted candidate table. -/
abbrev Joint := List Region

/-- Model of `TessBaseAPI::IsPointInsideTable` (tableextractor.cpp lines
135-144): concatenate all joint groups of the table, take the bounding
rectangle of the concatenation, and test `cv::Rect::contains`. -/
def isPointInsideTable (p : Pt) (table : Region) : Bool :=
  rectContains (boundingRect table.flatten) p

/-- One candidate external contour found on the combined
horizontal-plus-vertical line mask, together with the data the external
OpenCV primitives compute for it: the enclosed area (`cv::contourArea`), the
offset of its bounding rectangle (`cv::Mat::locateROI`, equal to the
rectangle's top-left corner), and the joint contours found inside the
cropped intersection mask, in ROI-local coordinates. -/
structure Candidate where
  area : ℚ
  offsetX : Int
  offsetY : Int
  jointsContours : List (List Pt)
  deriving DecidableEq, Repr

/-- Translation of a candidate's joint contours back into full-page
coordinates by adding the bounding-rectangle offset (tableextractor.cpp
lines 108-113). -/
def translateGroups (c : Candidate) : Region :=
  c.jointsContours.map (fun g => g.map (fun p => ⟨p.x + c.offsetX, p.y + c.offsetY⟩))

/-- Model of the candidate loop of `TessBaseAPI::ExtractTableJoints`
(tableextractor.cpp lines 84-125): skip a candidate when its area is below
50, skip it when it has 4 or fewer joint contours, and otherwise record its
translated joint contours. -/
def extractTableJoints : List Candidate → Joint
  | [] => []
  | c :: rest =>
    if c.area < 50 then extractTableJoints rest
    else if c.jointsContours.length ≤ 4 then extractTableJoints rest
    else translateGroups c :: extractTableJoints rest

/-- External contour pass feeding `extractTableJoints`.  `none` models a page
image that fails to load (`cv::imread` returns a `Mat` with null `data`):
the source prints a warning and continues, all morphological masks derived
from the empty image are empty, and `cv::findContours` on an empty mask
yields no contours. -/
def candidatesFromLoad : Option (List Candidate) → List Candidate
  | none => []
  | some cs => cs

/-- `ExtractTableJoints` as a function of the image-load outcome. -/
def extractTableJointsLoad (load : Option (List Candidate)) : Joint :=
  extractTableJoints (candidatesFromLoad load)

/-! Grid building: abbyyrenderer.cpp lines 189-224.  For one region the
source iterates joint groups in reverse discovery order and, per axis,
pushes a point's coordinate unless it is within 3 px of an already
accumulated coordinate, in which case it stops taking coordinates from the
current group; finally the axis list is sorted ascending with `std::sort`. -/

/-- Test of the inner `k` loop: some already-accumulated coordinate is
within the 3 px tolerance of `v` (`abs(acc[k] - v) < 3`). -/
def dupNear (acc : List Int) (v : Int) : Bool :=
  acc.any (fun k => (k - v).natAbs < 3)

/-- Scan of one joint group (the `l` loop): push coordinates in order until
the first within-tolerance duplicate, then stop for this group. -/
def groupScan : List Int → List Int → List Int
  | acc, [] => acc
  | acc, p :: rest => if dupNear acc p then acc else groupScan (acc ++ [p]) rest

/-- Accumulation over all joint groups in reverse discovery order (the `j`
loop running from `size - 1` down to `0`). -/
def axisRaw (groups : List (List Int)) : List Int :=
  (groups.reverse).foldl groupScan []

/-- Full per-axis grid coordinates: accumulate, then sort ascending
(`std::sort`). -/
def axisCoords (groups : List (List Int)) : List Int :=
  List.insertionSort (· ≤ ·) (axisRaw groups)

/-- X grid boundaries of a region (the source's `x_coords` entry). -/
def gridXs (t : Region) : List Int := axisCoords (t.map (fun g => g.map Pt.x))

/-- Y grid boundaries of a region (the source's `y_coords` entry). -/
def gridYs (t : Region) : List Int := axisCoords (t.map (fun g => g.map Pt.y))

/-! Reference formulation of the grid algorithm, following the words of the
specification, for comparison with the source-derived `axisCoords`:
within a group, scan points in order and append a point's coordinate only
if it differs by at least 3 pixels from every coordinate already
accumulated on that axis; stop taking coordinates from the current group as
soon as one within-tolerance duplicate is found; iterate groups in reverse
discovery order and finally sort ascending. -/

/-- Specification predicate: `v` differs by at least 3 px from every
already-accumulated coordinate. -/
def specFresh (acc : List Int) (v : Int) : Bool :=
  acc.all (fun k => 3 ≤ (k - v).natAbs)

/-- Specification step for one point of a group: once stopped, stay stopped;
otherwise append the coordinate if fresh and stop at the first
within-tolerance duplicate. -/
def specStep : (List Int × Bool) → Int → (List Int × Bool)
  | (acc, true), _ => (acc, true)
  | (acc, false), p => if specFresh acc p then (acc ++ [p], false) else (acc, true)

/-- Specification scan of one group. -/
def specGroup (acc : List Int) (g : List Int) : List Int :=
  (g.foldl specStep (acc, false)).1

/-- Specification version of the whole per-axis algorithm. -/
def specAxisCoords (groups : List (List Int)) : List Int :=
  List.insertionSort (· ≤ ·) ((groups.reverse).foldl specGroup [])

/-! Row/column assignment: abbyyrenderer.cpp lines 307-348.  The loop scans
`i = 1, 2, ...` over the sorted boundary list and takes the first `i` with
`coordinate < boundary[i]`, leaving the index at 0 when no such `i`
exists. -/

/-- Scan helper for the row/column loops: returns the current index at the
first boundary strictly greater than `v`, and 0 when the list is
exhausted. -/
def rcGo (v : Int) : Nat → List Int → Nat
  | _, [] => 0
  | i, c :: rest => if v < c then i else rcGo v (i + 1) rest

/-- Row (resp. column) index assigned to coordinate `v` against the sorted
boundary list `cs`: the smallest `i ≥ 1` with `v < cs[i]`, or 0 when there
is none.  Models `cur_row` (with `cs = y_coords[cur_table_idx]`) and
`cur_col` (with `cs = x_coords[cur_table_idx]`). -/
def curRowOf (cs : List Int) (v : Int) : Nat :=
  rcGo v 1 (cs.drop 1)

/-- Index `i` is a hit for coordinate `v`: a valid boundary index `i ≥ 1`
with `v < cs[i]`. -/
def isHit (cs : List Int) (v : Int) (i : Nat) : Prop :=
  1 ≤ i ∧ i < cs.length ∧ v < cs.getD i 0

instance (cs : List Int) (v : Int) (i : Nat) : Decidable (isHit cs v i) := by
  unfold isHit; infer_instance

/-! Markup tokens.  Each constructor corresponds to one contiguous burst of
`abbyy_str <<` insertions in `GetAbbyyText`; `render` below maps each token
to the exact text written by the source. -/

/-- Bounding box streamed by `AddBoxToAbbyy`. -/
structure BBox where
  l : Int
  t : Int
  r : Int
  b : Int
  deriving DecidableEq, Repr

/-- Attributes common to both word-span forms (abbyyrenderer.cpp lines
355-380 and 416-460). -/
structure SpanAttrs where
  conf : Int
  l : Int
  t : Int
  r : Int
  b : Int
  wordfirst : Bool
  dict : Bool
  numeric : Bool
  fontsize : Int
  bold : Bool
  italic : Bool
  text : String
  deriving DecidableEq, Repr

/-- Output tokens of `GetAbbyyText`. -/
inductive Tok where
  | pageOpenTag (pid : Nat)
  | filenameText (f : String)
  | pageAttrs (l t w h : Int) (pno : Nat)
  | unknownName
  | openBlock (pid bcnt : Nat) (box : BBox)
  | closeTableT
  | closeTbodyT
  | openTableT
  | openTbodyT
  | closeTr
  | openTr
  | closeTd
  | openTd
  | tableSpan (a : SpanAttrs)
  | openP (pid pcnt : Nat) (rtl : Bool) (lang : Option String) (box : BBox)
  | openLine (pid lcnt : Nat) (box : BBox)
  | flowSpan (a : SpanAttrs) (lang : Option String) (fontName : Option String)
  | dirMarker (ltr : Bool)
  | closeLine
  | closeP
  | closeBlock
  | closePageDiv
  deriving DecidableEq, Repr

/-- Writing direction of a word (`StrongScriptDirection` cases used by the
source's `switch`). -/
inductive WDir where
  | ltr
  | rtl
  | mix
  | neutral
  deriving DecidableEq, Repr

/-- One recognized word together with everything the source queries from the
external recognizer's `ResultIterator` at that word. -/
structure Word where
  text : String
  isBeginBlock : Bool
  isBeginPara : Bool
  isBeginLine : Bool
  blockBox : BBox
  paraBox : BBox
  lineBox : BBox
  left : Int
  top : Int
  right : Int
  bottom : Int
  conf : Int
  dict : Bool
  numeric : Bool
  bold : Bool
  italic : Bool
  fontName : Option String
  fontsize : Int
  lang : Option String
  dir : WDir
  paraLtr : Bool
  lastLine : Bool
  lastPara : Bool
  lastBlock : Bool
  deriving DecidableEq, Repr

/-- Blank-word test (abbyyrenderer.cpp line 266):
`find_first_not_of(" \t\n\v\f\r") == npos`. -/
def isBlank (s : String) : Bool :=
  s.data.all (fun c =>
    c == ' ' || c == '\t' || c == '\n' || c == '\x0b' || c == '\x0c' || c == '\r')

/-- Serialization cursor: the mutable locals of the word loop
(`prev_col`, `prev_row`, `prev_table_idx`, `para_is_ltr`, `paragraph_lang`,
and the id counters `lcnt`, `pcnt`, `bcnt`). -/
structure SState where
  prevCol : Nat
  prevRow : Nat
  prevTable : Int
  paraIsLtr : Bool
  paraLang : Option String
  lcnt : Nat
  pcnt : Nat
  bcnt : Nat
  deriving DecidableEq, Repr

/-- Initial cursor state (abbyyrenderer.cpp lines 145-148, 255-258). -/
def initState : SState :=
  { prevCol := 0, prevRow := 0, prevTable := -1, paraIsLtr := true,
    paraLang := none, lcnt := 1, pcnt := 1, bcnt := 1 }

/-- Membership scan (abbyyrenderer.cpp lines 285-294): index of the first
region whose bounding rectangle contains the point, else none
(`cur_table_idx = -1`). -/
def miGo (p : Pt) : Nat → List Region → Option Nat
  | _, [] => none
  | n, r :: rest => if isPointInsideTable p r then some n else miGo p (n + 1) rest

/-- First-region membership of a point. -/
def memberIdx (regions : List Region) (p : Pt) : Option Nat :=
  miGo p 0 regions

/-- Row handling of one in-table word (abbyyrenderer.cpp lines 307-327):
tokens emitted and updated `prev_row`, `prev_col`. -/
def rowSection (ys : List Int) (y : Int) (prevRow prevCol : Nat) :
    List Tok × Nat × Nat :=
  let r := curRowOf ys y
  if r = 0 then ([], prevRow, prevCol)
  else if prevRow < r then
    if prevRow = 0 then ([Tok.openTr], r, prevCol)
    else ([Tok.closeTr, Tok.openTr], r, 0)
  else ([], prevRow, prevCol)

/-- Column handling of one in-table word (abbyyrenderer.cpp lines 328-348):
tokens emitted and updated `prev_col`. -/
def colSection (xs : List Int) (x : Int) (prevCol : Nat) : List Tok × Nat :=
  let c := curRowOf xs x
  if c = 0 then ([], prevCol)
  else if prevCol < c then
    if prevCol = 0 then ([Tok.openTd], c)
    else ([Tok.closeTd, Tok.openTd], c)
  else ([], prevCol)

/-- Word span of the in-table branch (abbyyrenderer.cpp lines 349-380): it
carries confidence, box, wordfirst, dictionary, numeric and fontsize, but no
language or font-name attribute. -/
def mkTableSpan (w : Word) : Tok :=
  Tok.tableSpan ⟨w.conf, w.left, w.top, w.right, w.bottom, w.isBeginLine,
                 w.dict, w.numeric, w.fontsize, w.bold, w.italic, w.text⟩

/-- Word span of the flow branch (abbyyrenderer.cpp lines 416-460).  The
language attribute is emitted when the word reports a language and it
differs from the paragraph's (`lang && (!paragraph_lang || strcmp(...))`);
the font-name attribute is emitted when `font_info` is set and a font name
is available. -/
def mkFlowSpan (paraLang : Option String) (fi : Bool) (w : Word) : Tok :=
  let langAttr : Option String :=
    match w.lang with
    | some l => if paraLang = some l then none else some l
    | none => none
  let fontAttr : Option String := if fi then w.fontName else none
  Tok.flowSpan ⟨w.conf, w.left, w.top, w.right, w.bottom, w.isBeginLine,
                w.dict, w.numeric, w.fontsize, w.bold, w.italic, w.text⟩
    langAttr fontAttr

/-- Direction marker after a flow word span (abbyyrenderer.cpp lines
464-476): emitted only when the word's direction diverges from the current
paragraph direction. -/
def mkDirToks (paraIsLtr : Bool) (w : Word) : List Tok :=
  match w.dir with
  | .ltr => if !paraIsLtr then [Tok.dirMarker true] else []
  | .rtl => if paraIsLtr then [Tok.dirMarker false] else []
  | _ => []

/-- One iteration of the word loop of `GetAbbyyText` (abbyyrenderer.cpp
lines 260-587): blank words are skipped; a block div opens at
begin-of-block; the word's center decides table membership; a membership
change emits `</table></tbody>` and resets the row/column cursor; in-table
words go through table/tbody/tr/td handling and a table span; flow words go
through paragraph/line opening, a flow span and a direction marker; line and
paragraph markup close only outside tables, while block markup closes
unconditionally at end-of-block. -/
def wordStep (fi : Bool) (pid : Nat) (regions : List Region)
    (xss yss : List (List Int)) (st : SState) (w : Word) : SState × List Tok :=
  if isBlank w.text then (st, [])
  else
    let st1 := if w.isBeginBlock then { st with paraIsLtr := true } else st
    let blockToks : List Tok :=
      if w.isBeginBlock then [Tok.openBlock pid st1.bcnt w.blockBox] else []
    let x := (w.left + w.right) / 2
    let y := (w.top + w.bottom) / 2
    let cur : Int :=
      match memberIdx regions ⟨x, y⟩ with
      | some n => Int.ofNat n
      | none => -1
    let tcToks : List Tok :=
      if st1.prevTable ≠ cur then [Tok.closeTableT, Tok.closeTbodyT] else []
    let st2 := if st1.prevTable ≠ cur then { st1 with prevRow := 0, prevCol := 0 } else st1
    if cur = -1 then
      let pToks : List Tok :=
        if w.isBeginPara then [Tok.openP pid st2.pcnt (!w.paraLtr) w.lang w.paraBox] else []
      let st3 := if w.isBeginPara then { st2 with paraIsLtr := w.paraLtr, paraLang := w.lang } else st2
      let lToks : List Tok :=
        if w.isBeginLine then [Tok.openLine pid st3.lcnt w.lineBox] else []
      let span := mkFlowSpan st3.paraLang fi w
      let dToks := mkDirToks st3.paraIsLtr w
      let st4 := { st3 with prevTable := cur }
      let clToks : List Tok := if w.lastLine then [Tok.closeLine] else []
      let st5 := if w.lastLine then { st4 with lcnt := st4.lcnt + 1 } else st4
      let cpToks : List Tok := if w.lastPara then [Tok.closeP] else []
      let st6 := if w.lastPara then { st5 with pcnt := st5.pcnt + 1, paraIsLtr := true } else st5
      let cbToks : List Tok := if w.lastBlock then [Tok.closeBlock] else []
      let st7 := if w.lastBlock then { st6 with bcnt := st6.bcnt + 1 } else st6
      (st7, blockToks ++ tcToks ++ pToks ++ lToks ++ [span] ++ dToks ++
            clToks ++ cpToks ++ cbToks)
    else
      let n := cur.toNat
      let openToks : List Tok :=
        if cur ≠ st2.prevTable then [Tok.openTableT, Tok.openTbodyT] else []
      let rs := rowSection (yss.getD n []) y st2.prevRow st2.prevCol
      let cs := colSection (xss.getD n []) x rs.2.2
      let span := mkTableSpan w
      let st3 := { st2 with prevRow := rs.2.1, prevCol := cs.2, prevTable := cur }
      let cbToks : List Tok := if w.lastBlock then [Tok.closeBlock] else []
      let st4 := if w.lastBlock then { st3 with bcnt := st3.bcnt + 1 } else st3
      (st4, blockToks ++ tcToks ++ openToks ++ rs.1 ++ cs.1 ++ [span] ++ cbToks)

/-- The whole word loop: fold `wordStep` over the word stream in reading
order, concatenating the emitted tokens. -/
def serializeWords (fi : Bool) (pid : Nat) (regions : List Region)
    (xss yss : List (List Int)) : SState → List Word → List Tok
  | _, [] => []
  | st, w :: ws =>
    let r := wordStep fi pid regions xss yss st w
    r.2 ++ serializeWords fi pid regions xss yss r.1 ws

/-- Model of `TessBaseAPI::GetAbbyyText` after its null guard
(abbyyrenderer.cpp lines 175-597), as a token list.  `inputFile` is the
(already HOcr-escaped) input file name; `load` is the outcome of loading the
page image.  When the file name is set, table regions are extracted, the
per-region grids are built and the word loop runs, followed by the closing
page div; when it is unset, the source appends only the text `unknown` to
the still-open `filename` attribute.  Modelled from the spec: the helper
`SetInputName` called at entry is declared outside these sources; with a
null argument the input name is taken to remain unset, which is the premise
of the unset-name branch. -/
def getAbbyyTokens (inputFile : Option String) (load : Option (List Candidate))
    (pageNumber : Nat) (rl rt rw rh : Int) (fi : Bool) (words : List Word) :
    List Tok :=
  let pid := pageNumber + 1
  Tok.pageOpenTag pid ::
    (match inputFile with
     | some f =>
       let regions := extractTableJointsLoad load
       let xss := regions.map gridXs
       let yss := regions.map gridYs
       Tok.filenameText f :: Tok.pageAttrs rl rt rw rh pageNumber ::
         (serializeWords fi pid regions xss yss initState words ++ [Tok.closePageDiv])
     | none => [Tok.unknownName])

/-- Single-quote character, written once so that the markup strings below
can stay free of bare apostrophes. -/
def sq : String := "\x27"

/-- Text of one bounding-box attribute run (`AddBoxToAbbyy`). -/
def renderBox (b : BBox) : String :=
  "left=\x27" ++ toString b.l ++ "\x27 top=\x27" ++ toString b.t ++
  "\x27 right=\x27" ++ toString b.r ++ "\x27 bottom=\x27" ++ toString b.b ++ "\x27>"

/-- Body of a word span after the attribute list: optional bold/italic
wrapping (note the source closes `</strong>` before `</em>`) and the closing
`</span>`. -/
def renderSpanBody (a : SpanAttrs) : String :=
  (if a.bold then "<strong>" else "") ++ (if a.italic then "<em>" else "") ++
  a.text ++
  (if a.bold then "</strong>" else "") ++ (if a.italic then "</em>" else "") ++
  "</span>"

/-- Rendering of a Bool streamed through `static_cast<int>`. -/
def b01 (b : Bool) : String := if b then "1" else "0"

/-- Exact text each token contributes to the output string. -/
def render : Tok → String
  | .pageOpenTag pid =>
    "  <div class=\x27page\x27 id=\x27page_" ++ Nat.repr pid ++ "\x27 filename=\x27"
  | .filenameText f => f
  | .pageAttrs l t w h pno =>
    "\x27 left=\x27" ++ toString l ++ "\x27 top=\x27" ++ toString t ++
    "\x27 width=\x27" ++ toString w ++ "\x27 height=\x27" ++ toString h ++
    "\x27 ppageno=\x27" ++ Nat.repr pno ++ "\x27>\n"
  | .unknownName => "unknown"
  | .openBlock pid b box =>
    "   <div class=\x27block\x27 id=\x27block_" ++ Nat.repr pid ++ "_" ++
    Nat.repr b ++ "\x27 " ++ renderBox box
  | .closeTableT => "\n    </table>"
  | .closeTbodyT => "\n     </tbody>"
  | .openTableT => "\n    <table>"
  | .openTbodyT => "\n     <tbody>"
  | .closeTr => "\n      </tr>"
  | .openTr => "\n      <tr>"
  | .closeTd => "\n       </td>"
  | .openTd => "\n       <td>"
  | .tableSpan a =>
    "\n        <span wordconfidence=\x27" ++ toString a.conf ++
    "\x27 left=\x27" ++ toString a.l ++ "\x27 top=\x27" ++ toString a.t ++
    "\x27 right=\x27" ++ toString a.r ++ "\x27 bottom=\x27" ++ toString a.b ++
    "\x27 wordfirst=\x27" ++ b01 a.wordfirst ++
    "\x27 wordfromdictionary=\x27" ++ b01 a.dict ++
    "\x27 wordnumeric=\x27" ++ b01 a.numeric ++
    "\x27 fontsize=\x27" ++ toString a.fontsize ++ "\x27>" ++ renderSpanBody a
  | .openP pid p rtl lang box =>
    "\n    <p class=\x27paragraph\x27" ++ (if rtl then " dir=\x27rtl\x27" else "") ++
    " id=\x27par_" ++ Nat.repr pid ++ "_" ++ Nat.repr p ++ "\x27 " ++
    (match lang with | some l => " lang=\x27" ++ l ++ "\x27" | none => "") ++
    renderBox box
  | .openLine pid l box =>
    "\n     <span class=\x27line\x27 id=\x27line_" ++ Nat.repr pid ++ "_" ++
    Nat.repr l ++ "\x27 " ++ renderBox box
  | .flowSpan a lang font =>
    "\n      <span class=\x27word\x27 wordconfidence=\x27" ++ toString a.conf ++
    "\x27 left=\x27" ++ toString a.l ++ "\x27 top=\x27" ++ toString a.t ++
    "\x27 right=\x27" ++ toString a.r ++ "\x27 bottom=\x27" ++ toString a.b ++
    "\x27 wordfirst=\x27" ++ b01 a.wordfirst ++
    (match lang with | some l => "\x27 lang=\x27" ++ l | none => "") ++
    "\x27 wordfromdictionary=\x27" ++ b01 a.dict ++
    "\x27 wordnumeric=\x27" ++ b01 a.numeric ++
    (match font with | some f => "\x27 font_name=\x27" ++ f | none => "") ++
    "\x27 fontsize=\x27" ++ toString a.fontsize ++ "\x27>" ++ renderSpanBody a
  | .dirMarker ltr => if ltr then " dir=\x27ltr\x27" else " dir=\x27rtl\x27"
  | .closeLine => "\n     </span>"
  | .closeP => "\n    </p>\n"
  | .closeBlock => "   </div>\n"
  | .closePageDiv => "  </div>\n"

/-- Concatenation of the rendered tokens. -/
def renderAll (ts : List Tok) : String :=
  ts.foldl (fun s t => s ++ render t) ""

/-- Top-level `GetAbbyyText` model.  `initialized` models the guard
`tesseract_ == nullptr || (page_res_ == nullptr && Recognize(monitor) < 0)`:
when it fails the source returns `nullptr`, otherwise the built string. -/
def getAbbyyText (initialized : Bool) (inputFile : Option String)
    (load : Option (List Candidate)) (pageNumber : Nat) (rl rt rw rh : Int)
    (fi : Bool) (words : List Word) : Option String :=
  if initialized then
    some (renderAll (getAbbyyTokens inputFile load pageNumber rl rt rw rh fi words))
  else none

/-! Structural (well-formedness) view of the token stream. -/

/-- Markup element kinds opened and closed by the tokens. -/
inductive Elem where
  | page
  | block
  | table
  | tbody
  | trow
  | tcell
  | para
  | line
  deriving DecidableEq, Repr

/-- Open/close event of a token, if any: `some (true, e)` opens `e`,
`some (false, e)` closes `e`, `none` for self-contained or textual
tokens. -/
def tokEvent : Tok → Option (Bool × Elem)
  | .pageOpenTag _ => some (true, .page)
  | .closePageDiv => some (false, .page)
  | .openBlock _ _ _ => some (true, .block)
  | .closeBlock => some (false, .block)
  | .openTableT => some (true, .table)
  | .closeTableT => some (false, .table)
  | .openTbodyT => some (true, .tbody)
  | .closeTbodyT => some (false, .tbody)
  | .openTr => some (true, .trow)
  | .closeTr => some (false, .trow)
  | .openTd => some (true, .tcell)
  | .closeTd => some (false, .tcell)
  | .openP _ _ _ _ _ => some (true, .para)
  | .closeP => some (false, .para)
  | .openLine _ _ _ => some (true, .line)
  | .closeLine => some (false, .line)
  | _ => none

/-- Stack walk of the open/close events. -/
def wfGo : List Elem → List Tok → Bool
  | stack, [] => stack.isEmpty
  | stack, t :: ts =>
    match tokEvent t with
    | none => wfGo stack ts
    | some (true, e) => wfGo (e :: stack) ts
    | some (false, e) =>
      match stack with
      | [] => false
      | e' :: s => if e = e' then wfGo s ts else false

/-- Stack-based well-formedness of a token stream: every close matches the
innermost open element and every open element is closed by the end. -/
def wellFormed (ts : List Tok) : Bool := wfGo [] ts

/-- Token classifier: table-related markup. -/
def isTableTok : Tok → Bool
  | .openTableT | .closeTableT | .openTbodyT | .closeTbodyT
  | .openTr | .closeTr | .openTd | .closeTd | .tableSpan _ => true
  | _ => false

/-- Token classifier: flow word spans. -/
def isFlowSpanTok : Tok → Bool
  | .flowSpan _ _ _ => true
  | _ => false

/-- Token classifier: any word span. -/
def isTableSpanTok : Tok → Bool
  | .tableSpan _ => true
  | _ => false

/-- Token classifier: direction markers. -/
def isDirTok : Tok → Bool
  | .dirMarker _ => true
  | _ => false

/-- Confidence carried by a word span, if the token is one. -/
def spanConf : Tok → Option Int
  | .tableSpan a => some a.conf
  | .flowSpan a _ _ => some a.conf
  | _ => none

/-- Dictionary flag carried by a word span. -/
def spanDict : Tok → Option Bool
  | .tableSpan a => some a.dict
  | .flowSpan a _ _ => some a.dict
  | _ => none

/-- Numeric flag carried by a word span. -/
def spanNumeric : Tok → Option Bool
  | .tableSpan a => some a.numeric
  | .flowSpan a _ _ => some a.numeric
  | _ => none

/-- Language attribute carried by a word span. -/
def spanLang : Tok → Option String
  | .flowSpan _ l _ => l
  | _ => none

/-- Font-name attribute carried by a word span. -/
def spanFont : Tok → Option String
  | .flowSpan _ _ f => f
  | _ => none

/-- A token carries a language attribute. -/
def hasLangAttr (t : Tok) : Bool := (spanLang t).isSome

/-- A token carries a font-name attribute. -/
def hasFontAttr (t : Tok) : Bool := (spanFont t).isSome

/-! Concrete inputs used by counterexamples and witnesses: one candidate
table whose joints form a 3-by-3 grid at coordinates 0, 10, 20 on both
axes, and some words placed against it. -/

/-- Joint groups of a 3-by-3 ruled grid (9 one-point joint contours). -/
def demoGroups : List (List Pt) :=
  [[⟨0, 0⟩], [⟨10, 0⟩], [⟨20, 0⟩], [⟨0, 10⟩], [⟨10, 10⟩], [⟨20, 10⟩],
   [⟨0, 20⟩], [⟨10, 20⟩], [⟨20, 20⟩]]

/-- One candidate contour: area 100 (above the 50 threshold), 9 joint
contours (above the 4 threshold), zero ROI offset. -/
def demoCands : List Candidate :=
  [{ area := 100, offsetX := 0, offsetY := 0, jointsContours := demoGroups }]

/-- The accepted table regions of `demoCands`. -/
def demoRegions : Joint := extractTableJoints demoCands

/-- A fixed bounding box used for the demo words' layout boxes. -/
def demoBox : BBox := ⟨0, 0, 20, 20⟩

/-- A word whose center (5, 5) lies in the first cell of the demo table. -/
def demoWordA : Word :=
  { text := "A", isBeginBlock := true, isBeginPara := true, isBeginLine := true,
    blockBox := demoBox, paraBox := demoBox, lineBox := demoBox,
    left := 4, top := 4, right := 6, bottom := 6, conf := 90,
    dict := false, numeric := false, bold := false, italic := false,
    fontName := none, fontsize := 10, lang := none, dir := .ltr, paraLtr := true,
    lastLine := true, lastPara := true, lastBlock := true }

/-- A word inside the demo table that reports a language, a font name and a
right-to-left direction. -/
def demoWordB : Word :=
  { demoWordA with text := "B", lang := some "deu", fontName := some "Arial",
                   dir := .rtl }

/-- Tokens produced for a page holding only `demoWordA` over the demo
table. -/
def demoToksA : List Tok :=
  getAbbyyTokens (some "img.png") (some demoCands) 0 0 0 100 100 false [demoWordA]

/-- Tokens produced for a page holding only `demoWordB` over the demo
table, with font output enabled. -/
def demoToksB : List Tok :=
  getAbbyyTokens (some "img.png") (some demoCands) 0 0 0 100 100 true [demoWordB]

/-! Helper lemmas about the row/column scan `rcGo`. -/

theorem rcGo_ne_zero_of_hit (v : Int) :
    ∀ (l : List Int) (i k : Nat), 1 ≤ i → k < l.length → v < l.getD k 0 →
      rcGo v i l ≠ 0 ∧ rcGo v i l ≤ i + k := by
  intro l
  induction l with
  | nil => intro i k _ hk _; simp at hk
  | cons c rest ih =>
    intro i k hi hk hv
    by_cases hvc : v < c
    · simp only [rcGo, if_pos hvc]
      exact ⟨by omega, by omega⟩
    · cases k with
      | zero => simp only [List.getD_cons_zero] at hv; exact absurd hv hvc
      | succ k =>
        simp only [rcGo, if_neg hvc]
        have h := ih (i + 1) k (by omega) (by simpa using hk)
          (by simpa using hv)
        exact ⟨h.1, by omega⟩

theorem rcGo_spec_of_ne_zero (v : Int) :
    ∀ (l : List Int) (i : Nat), 1 ≤ i → rcGo v i l ≠ 0 →
      ∃ k, k < l.length ∧ rcGo v i l = i + k ∧ v < l.getD k 0 ∧
        ∀ j, j < k → ¬ v < l.getD j 0 := by
  intro l
  induction l with
  | nil => intro i _ h; simp [rcGo] at h
  | cons c rest ih =>
    intro i hi h
    by_cases hvc : v < c
    · refine ⟨0, by simp, ?_, by simpa using hvc, by omega⟩
      simp [rcGo, if_pos hvc]
    · simp only [rcGo, if_neg hvc] at h ⊢
      obtain ⟨k, hk, heq, hv, hmin⟩ := ih (i + 1) (by omega) h
      refine ⟨k + 1, by simpa using hk, by omega, by simpa using hv, ?_⟩
      intro j hj
      cases j with
      | zero => simpa using hvc
      | succ j => simpa using hmin j (by omega)

theorem getD_drop_one (cs : List Int) (k : Nat) :
    (cs.drop 1).getD k 0 = cs.getD (k + 1) 0 := by
  cases cs <;> simp [List.getD]

theorem curRowOf_hit_le (cs : List Int) (v : Int) (i : Nat) (h : isHit cs v i) :
    curRowOf cs v ≠ 0 ∧ curRowOf cs v ≤ i := by
  obtain ⟨h1, h2, h3⟩ := h
  have hk : i - 1 < (cs.drop 1).length := by simp [List.length_drop]; omega
  have hv : v < (cs.drop 1).getD (i - 1) 0 := by
    rw [getD_drop_one]
    have hi : i - 1 + 1 = i := by omega
    rw [hi]; exact h3
  have h := rcGo_ne_zero_of_hit v (cs.drop 1) 1 (i - 1) le_rfl hk hv
  exact ⟨h.1, by unfold curRowOf; omega⟩

theorem curRowOf_spec (cs : List Int) (v : Int) (h : curRowOf cs v ≠ 0) :
    isHit cs v (curRowOf cs v) ∧
    ∀ j, 1 ≤ j → j < curRowOf cs v → ¬ v < cs.getD j 0 := by
  obtain ⟨k, hk, heq, hv, hmin⟩ :=
    rcGo_spec_of_ne_zero v (cs.drop 1) 1 le_rfl h
  have hlen : (cs.drop 1).length = cs.length - 1 := List.length_drop 1 cs
  unfold curRowOf at *
  rw [heq]
  refine ⟨⟨by omega, by omega, ?_⟩, ?_⟩
  · rw [Nat.add_comm 1 k, ← getD_drop_one]
    exact hv
  · intro j hj hjk
    obtain ⟨j', rfl⟩ : ∃ j', j = j' + 1 := ⟨j - 1, by omega⟩
    rw [← getD_drop_one]
    exact hmin j' (by omega)

theorem curRowOf_mono (cs : List Int) (v₁ v₂ : Int) (h12 : v₁ ≤ v₂)
    (h2 : curRowOf cs v₂ ≠ 0) : curRowOf cs v₁ ≤ curRowOf cs v₂ := by
  obtain ⟨hhit, _⟩ := curRowOf_spec cs v₂ h2
  have hhit1 : isHit cs v₁ (curRowOf cs v₂) :=
    ⟨hhit.1, hhit.2.1, lt_of_le_of_lt h12 hhit.2.2⟩
  exact (curRowOf_hit_le cs v₁ _ hhit1).2

theorem sorted_le_getLast (cs : List Int) (hs : List.Sorted (· ≤ ·) cs)
    (L : Int) (hL : cs.getLast? = some L) : ∀ a ∈ cs, a ≤ L := by
  induction cs with
  | nil => simp at hL
  | cons c rest ih =>
    intro a ha
    cases rest with
    | nil =>
      simp at hL ha
      omega
    | cons r rest' =>
      rw [List.getLast?_cons_cons] at hL
      have hs' : List.Sorted (· ≤ ·) (r :: rest') := hs.of_cons
      have hhead : ∀ b ∈ r :: rest', c ≤ b := List.rel_of_sorted_cons hs
      rw [List.mem_cons] at ha
      rcases ha with rfl | ha
      · have hLmem : L ∈ r :: rest' := by
          obtain ⟨hne, heq⟩ := List.mem_getLast?_eq_getLast hL
          rw [heq]
          exact List.getLast_mem hne
        exact hhead L hLmem
      · exact ih hs' hL a ha

/-- Claim C3: for every table region and every point whose membership
resolves to that region, the assigned row index is the smallest index
`i ≥ 1` into the sorted y-boundaries with `y < yBoundary[i]` (and the same
function computes the column index from the x-boundaries); if the
coordinate is at or beyond the last boundary the index stays 0 and no new
row (resp. cell) markup is opened. -/
theorem claim_c3 (cs : List Int) (v : Int) (hs : List.Sorted (· ≤ ·) cs) :
    (∀ i, isHit cs v i → isHit cs v (curRowOf cs v) ∧ curRowOf cs v ≤ i) ∧
    ((∀ i, ¬ isHit cs v i) → curRowOf cs v = 0) ∧
    (∀ L, cs.getLast? = some L → L ≤ v → curRowOf cs v = 0) ∧
    (∀ pr pc, curRowOf cs v = 0 → rowSection cs v pr pc = ([], pr, pc)) ∧
    (∀ pc, curRowOf cs v = 0 → colSection cs v pc = ([], pc)) := by
  refine ⟨?_, ?_, ?_, ?_, ?_⟩
  · intro i hi
    have h0 := curRowOf_hit_le cs v i hi
    exact ⟨(curRowOf_spec cs v h0.1).1, h0.2⟩
  · intro hno
    by_contra h
    exact hno _ (curRowOf_spec cs v h).1
  · intro L hL hLe
    by_contra h
    obtain ⟨⟨h1, h2, h3⟩, _⟩ := curRowOf_spec cs v h
    have hmem : cs.getD (curRowOf cs v) 0 ∈ cs := by
      rw [List.getD_eq_getElem cs 0 h2]
      exact List.getElem_mem h2
    have hle := sorted_le_getLast cs hs L hL _ hmem
    omega
  · intro pr pc h
    simp [rowSection, h]
  · intro pc h
    simp [colSection, h]

/-- Witness for C3 at the demo grid boundaries [0, 10, 20] and coordinate
5: the assigned index is a hit and is at most the hit index 1. -/
theorem claim_c3_witness :
    isHit [0, 10, 20] (5 : Int) (curRowOf [0, 10, 20] 5) ∧
    curRowOf [0, 10, 20] (5 : Int) ≤ 1 := by
  have hs : List.Sorted (· ≤ ·) ([0, 10, 20] : List Int) := by decide
  exact (claim_c3 [0, 10, 20] 5 hs).1 1 (by decide)

/-- Counterexample for C8 as stated: both word centers (5, 5) and (5, 20)
lie inside the accepted demo table and their y coordinates are
non-decreasing, yet the assigned row index drops from 1 to 0, because the
second center sits at the last y-boundary of the grid. -/
theorem claim_c8_cex :
    demoRegions.length = 1 ∧
    isPointInsideTable ⟨5, 5⟩ (demoRegions.getD 0 []) = true ∧
    isPointInsideTable ⟨5, 20⟩ (demoRegions.getD 0 []) = true ∧
    ((5 : Int) ≤ 20) ∧
    curRowOf (gridYs (demoRegions.getD 0 [])) 5 = 1 ∧
    curRowOf (gridYs (demoRegions.getD 0 [])) 20 = 0 ∧
    ¬ curRowOf (gridYs (demoRegions.getD 0 [])) 5 ≤
        curRowOf (gridYs (demoRegions.getD 0 [])) 20 := by
  decide

/-- Claim C8, amended: within one table, for words walked with
non-decreasing center y (resp., within a row, non-decreasing center x), the
assigned row (resp. column) index is non-decreasing provided the later word
actually receives an assignment (its index is not 0); a word at or beyond
the last boundary receives index 0, which can be a decrease. -/
theorem claim_c8 (ys : List Int) (y₁ y₂ : Int) (xs : List Int) (x₁ x₂ : Int)
    (hy : y₁ ≤ y₂) (hy2 : curRowOf ys y₂ ≠ 0)
    (hx : x₁ ≤ x₂) (hx2 : curRowOf xs x₂ ≠ 0) :
    curRowOf ys y₁ ≤ curRowOf ys y₂ ∧ curRowOf xs x₁ ≤ curRowOf xs x₂ :=
  ⟨curRowOf_mono ys y₁ y₂ hy hy2, curRowOf_mono xs x₁ x₂ hx hx2⟩

/-- Witness for the amended C8 on the demo grid: coordinates 5 then 15 both
receive assignments and the indices do not decrease. -/
theorem claim_c8_witness :
    curRowOf [0, 10, 20] (15 : Int) ≠ 0 ∧
    curRowOf [0, 10, 20] (5 : Int) ≤ curRowOf [0, 10, 20] (15 : Int) :=
  ⟨by decide,
   (claim_c8 [0, 10, 20] 5 15 [0, 10, 20] 5 15 (by norm_num) (by decide)
     (by norm_num) (by decide)).1⟩

/-! Helper lemmas for the grid-coordinate accumulation. -/

theorem dupNear_false_iff (acc : List Int) (v : Int) :
    dupNear acc v = false ↔ ∀ k ∈ acc, 3 ≤ (k - v).natAbs := by
  simp only [dupNear, List.any_eq_false, decide_eq_true_eq]
  constructor
  · intro h k hk
    have := h k hk
    omega
  · intro h k hk
    have := h k hk
    omega

theorem groupScan_pairwise :
    ∀ (g acc : List Int),
      acc.Pairwise (fun a b => 3 ≤ (a - b).natAbs) →
      (groupScan acc g).Pairwise (fun a b => 3 ≤ (a - b).natAbs) := by
  intro g
  induction g with
  | nil => intro acc h; exact h
  | cons p rest ih =>
    intro acc h
    by_cases hd : dupNear acc p
    · simpa [groupScan, hd] using h
    · have hstep : groupScan acc (p :: rest) = groupScan (acc ++ [p]) rest := by
        simp [groupScan, hd]
      rw [hstep]
      apply ih
      rw [List.pairwise_append]
      refine ⟨h, List.pairwise_singleton _ _, ?_⟩
      intro a ha b hb
      simp only [List.mem_singleton] at hb
      subst hb
      exact (dupNear_false_iff acc b).1 (Bool.eq_false_iff.2 hd) a ha

theorem axisRaw_pairwise (groups : List (List Int)) :
    (axisRaw groups).Pairwise (fun a b => 3 ≤ (a - b).natAbs) := by
  have h : ∀ (gs : List (List Int)) (acc : List Int),
      acc.Pairwise (fun a b => 3 ≤ (a - b).natAbs) →
      (gs.foldl groupScan acc).Pairwise (fun a b => 3 ≤ (a - b).natAbs) := by
    intro gs
    induction gs with
    | nil => intro acc h; exact h
    | cons g gs ih => intro acc h; exact ih _ (groupScan_pairwise g acc h)
  exact h _ [] List.Pairwise.nil

/-- Claim C5: for every accepted table region's joint groups, the per-axis
boundary list is strictly increasing after sorting, every pair of distinct
boundaries differs by at least the merge tolerance of 3 pixels, and
adjacent boundaries are at least 3 apart. -/
theorem claim_c5 (groups : List (List Int)) :
    List.Sorted (· < ·) (axisCoords groups) ∧
    (axisCoords groups).Pairwise (fun a b => 3 ≤ (a - b).natAbs) ∧
    (axisCoords groups).Chain' (fun a b => a + 3 ≤ b) := by
  have hperm : List.Perm (List.insertionSort (· ≤ ·) (axisRaw groups)) (axisRaw groups) :=
    List.perm_insertionSort _ _
  have hgap : (axisCoords groups).Pairwise (fun a b => 3 ≤ (a - b).natAbs) := by
    unfold axisCoords
    exact (hperm.pairwise_iff (fun h => by omega)).2 (axisRaw_pairwise groups)
  have hle : List.Sorted (· ≤ ·) (axisCoords groups) :=
    List.sorted_insertionSort _ _
  have hcomb : (axisCoords groups).Pairwise
      (fun a b => a ≤ b ∧ 3 ≤ (a - b).natAbs) := List.Pairwise.and hle hgap
  refine ⟨hcomb.imp ?_, hgap, (hcomb.imp ?_).chain'⟩
  · intro a b h
    omega
  · intro a b h
    omega

/-! Helper lemmas for the specification formulation of the grid pass. -/

theorem specStep_stopped :
    ∀ (g : List Int) (acc : List Int), g.foldl specStep (acc, true) = (acc, true) := by
  intro g
  induction g with
  | nil => intro acc; rfl
  | cons p rest ih => intro acc; simpa [specStep] using ih acc

theorem specFresh_eq_not_dupNear (acc : List Int) (p : Int) :
    specFresh acc p = !dupNear acc p := by
  cases h : dupNear acc p
  · have hall := (dupNear_false_iff acc p).1 h
    simp only [Bool.not_false]
    simp only [specFresh, List.all_eq_true, decide_eq_true_eq]
    exact hall
  · simp only [Bool.not_true]
    simp only [dupNear, List.any_eq_true, decide_eq_true_eq] at h
    obtain ⟨k, hk, hlt⟩ := h
    simp only [specFresh, List.all_eq_false]
    exact ⟨k, hk, by simp; omega⟩

theorem groupScan_eq_specGroup : ∀ (g acc : List Int), groupScan acc g = specGroup acc g := by
  intro g
  induction g with
  | nil => intro acc; rfl
  | cons p rest ih =>
    intro acc
    by_cases hd : dupNear acc p
    · have hf : specFresh acc p = false := by
        rw [specFresh_eq_not_dupNear, hd]; rfl
      simp [groupScan, specGroup, hd, specStep, hf, specStep_stopped]
    · have hf : specFresh acc p = true := by
        rw [specFresh_eq_not_dupNear, Bool.eq_false_iff.2 hd]; rfl
      simp only [groupScan, if_neg hd]
      rw [ih (acc ++ [p])]
      simp [specGroup, specStep, hf]

/-- Claim C6: the source's per-axis grid-coordinate computation coincides,
for every list of joint groups, with the reference algorithm of the
specification (reverse group order, append a coordinate only when at least
3 px from all accumulated ones, stop a group at the first within-tolerance
duplicate, sort ascending). -/
theorem claim_c6 (groups : List (List Int)) :
    axisCoords groups = specAxisCoords groups := by
  unfold axisCoords specAxisCoords axisRaw
  congr 1
  have h : ∀ (gs : List (List Int)) (acc : List Int),
      gs.foldl groupScan acc = gs.foldl specGroup acc := by
    intro gs
    induction gs with
    | nil => intro acc; rfl
    | cons g gs ih =>
      intro acc
      simp only [List.foldl_cons]
      rw [groupScan_eq_specGroup, ih]
  exact h _ []

/-- Claim C7: the candidate loop of `ExtractTableJoints` keeps exactly the
candidates with area at least 50 and more than 4 joint contours, in
discovery order, each with its joint points translated by the
bounding-rectangle offset. -/
theorem claim_c7 (cs : List Candidate) :
    extractTableJoints cs =
      (cs.filter fun c =>
        decide (50 ≤ c.area) && decide (4 < c.jointsContours.length)).map
        translateGroups := by
  induction cs with
  | nil => rfl
  | cons c rest ih =>
    rw [List.filter_cons]
    by_cases h1 : c.area < 50
    · have hb : (decide (50 ≤ c.area) && decide (4 < c.jointsContours.length)) = false := by
        have hd : decide (50 ≤ c.area) = false := decide_eq_false (not_le.mpr h1)
        rw [hd, Bool.false_and]
      rw [hb]
      simpa [extractTableJoints, h1] using ih
    · by_cases h2 : c.jointsContours.length ≤ 4
      · have hb : (decide (50 ≤ c.area) && decide (4 < c.jointsContours.length)) = false := by
          have hd : decide (4 < c.jointsContours.length) = false :=
            decide_eq_false (not_lt.mpr h2)
          rw [hd, Bool.and_false]
        rw [hb]
        simpa [extractTableJoints, h1, h2] using ih
      · have hb : (decide (50 ≤ c.area) && decide (4 < c.jointsContours.length)) = true := by
          rw [decide_eq_true (not_lt.mp h1), decide_eq_true (not_le.mp h2), Bool.and_self]
        rw [hb]
        simp only [extractTableJoints, if_neg h1, if_neg h2, if_true, ite_true,
          List.map_cons]
        rw [ih]

/-! Helper lemmas for the bounding-rectangle membership test. -/

theorem foldMin_le (l : List Int) : ∀ (a : Int),
    foldMin a l ≤ a ∧ ∀ b ∈ l, foldMin a l ≤ b := by
  induction l with
  | nil => intro a; simp [foldMin]
  | cons x l ih =>
    intro a
    have h := ih (min a x)
    have hfold : foldMin a (x :: l) = foldMin (min a x) l := rfl
    refine ⟨by rw [hfold]; exact le_trans h.1 (min_le_left a x), ?_⟩
    intro b hb
    rw [List.mem_cons] at hb
    rcases hb with rfl | hb
    · rw [hfold]; exact le_trans h.1 (min_le_right a b)
    · rw [hfold]; exact h.2 b hb

theorem le_foldMax (l : List Int) : ∀ (a : Int),
    a ≤ foldMax a l ∧ ∀ b ∈ l, b ≤ foldMax a l := by
  induction l with
  | nil => intro a; simp [foldMax]
  | cons x l ih =>
    intro a
    have h := ih (max a x)
    have hfold : foldMax a (x :: l) = foldMax (max a x) l := rfl
    refine ⟨by rw [hfold]; exact le_trans (le_max_left a x) h.1, ?_⟩
    intro b hb
    rw [List.mem_cons] at hb
    rcases hb with rfl | hb
    · rw [hfold]; exact le_trans (le_max_right a b) h.1
    · rw [hfold]; exact h.2 b hb

theorem boundsOf_points (pts : List Pt) :
    ∀ q ∈ pts, minXOf pts ≤ q.x ∧ q.x ≤ maxXOf pts ∧
      minYOf pts ≤ q.y ∧ q.y ≤ maxYOf pts := by
  intro q hq
  cases pts with
  | nil => simp at hq
  | cons p ps =>
    rw [List.mem_cons] at hq
    have hminx := foldMin_le (ps.map Pt.x) p.x
    have hmaxx := le_foldMax (ps.map Pt.x) p.x
    have hminy := foldMin_le (ps.map Pt.y) p.y
    have hmaxy := le_foldMax (ps.map Pt.y) p.y
    rcases hq with rfl | hq
    · exact ⟨hminx.1, hmaxx.1, hminy.1, hmaxy.1⟩
    · refine ⟨hminx.2 q.x ?_, hmaxx.2 q.x ?_, hminy.2 q.y ?_, hmaxy.2 q.y ?_⟩ <;>
        exact List.mem_map_of_mem _ hq

theorem insideTable_iff (t : Region) (p : Pt) (h : t.flatten ≠ []) :
    isPointInsideTable p t = true ↔
      minXOf t.flatten ≤ p.x ∧ p.x ≤ maxXOf t.flatten ∧
      minYOf t.flatten ≤ p.y ∧ p.y ≤ maxYOf t.flatten := by
  obtain ⟨q, qs, hqt⟩ : ∃ q qs, t.flatten = q :: qs := by
    cases hf : t.flatten with
    | nil => exact absurd hf h
    | cons q qs => exact ⟨q, qs, rfl⟩
  unfold isPointInsideTable boundingRect rectContains
  rw [hqt]
  simp only [Bool.and_eq_true, decide_eq_true_eq]
  rw [← hqt]
  constructor
  · intro hh
    obtain ⟨⟨⟨ha, hb⟩, hc⟩, hd⟩ := hh
    exact ⟨ha, by omega, hc, by omega⟩
  · intro hh
    obtain ⟨ha, hb, hc, hd⟩ := hh
    exact ⟨⟨⟨ha, by omega⟩, hc⟩, by omega⟩

theorem miGo_shift (p : Pt) :
    ∀ (rs : List Region) (n0 : Nat),
      miGo p n0 rs = (miGo p 0 rs).map (fun k => k + n0) := by
  intro rs
  induction rs with
  | nil => intro n0; rfl
  | cons r rest ih =>
    intro n0
    by_cases hin : isPointInsideTable p r
    · simp [miGo, hin]
    · simp only [miGo, if_neg hin]
      rw [ih (n0 + 1), ih 1, Option.map_map]
      congr 1
      funext k
      simp
      omega

theorem memberIdx_some_spec (p : Pt) :
    ∀ (regions : List Region) (n : Nat), memberIdx regions p = some n →
      n < regions.length ∧ isPointInsideTable p (regions.getD n []) = true ∧
      ∀ m, m < n → isPointInsideTable p (regions.getD m []) = false := by
  intro regions
  induction regions with
  | nil => intro n h; simp [memberIdx, miGo] at h
  | cons r rest ih =>
    intro n h
    unfold memberIdx miGo at h
    by_cases hin : isPointInsideTable p r
    · rw [if_pos hin] at h
      obtain rfl : n = 0 := by simpa using h.symm
      exact ⟨by simp, by simpa using hin, by omega⟩
    · rw [if_neg hin] at h
      rw [miGo_shift p rest 1] at h
      obtain ⟨n', hn', rfl⟩ : ∃ n', memberIdx rest p = some n' ∧ n = n' + 1 := by
        cases hm : miGo p 0 rest with
        | none => rw [hm] at h; simp at h
        | some k =>
          rw [hm] at h
          simp at h
          exact ⟨k, hm, h.symm⟩
      obtain ⟨hlen, hmem, hmin⟩ := ih n' hn'
      refine ⟨by simpa using hlen, by simpa using hmem, ?_⟩
      intro m hm
      cases m with
      | zero => simpa using Bool.eq_false_iff.2 hin
      | succ m => simpa using hmin m (by omega)

theorem memberIdx_none_spec (p : Pt) :
    ∀ (regions : List Region), memberIdx regions p = none →
      ∀ n, n < regions.length → isPointInsideTable p (regions.getD n []) = false := by
  intro regions
  induction regions with
  | nil => intro _ n hn; simp at hn
  | cons r rest ih =>
    intro h n hn
    unfold memberIdx miGo at h
    by_cases hin : isPointInsideTable p r
    · rw [if_pos hin] at h; exact absurd h (by simp)
    · rw [if_neg hin] at h
      rw [miGo_shift p rest 1] at h
      have hrest : memberIdx rest p = none := by
        cases hm : miGo p 0 rest with
        | none => exact hm
        | some k => rw [hm] at h; simp at h
      cases n with
      | zero => simpa using Bool.eq_false_iff.2 hin
      | succ n => simpa using ih hrest n (by simpa using hn)

/-- Claim C4: membership resolution returns the index of the first region
in list order whose bounding rectangle (over all of the region's joint
points) contains the point, or none when no rectangle contains it, and the
containment test is inclusive of all four rectangle edges. -/
theorem claim_c4 (regions : List Region) (p : Pt) :
    (∀ n, memberIdx regions p = some n →
      n < regions.length ∧ isPointInsideTable p (regions.getD n []) = true ∧
      ∀ m, m < n → isPointInsideTable p (regions.getD m []) = false) ∧
    (memberIdx regions p = none →
      ∀ n, n < regions.length → isPointInsideTable p (regions.getD n []) = false) ∧
    (∀ t : Region, t.flatten ≠ [] →
      (isPointInsideTable p t = true ↔
        minXOf t.flatten ≤ p.x ∧ p.x ≤ maxXOf t.flatten ∧
        minYOf t.flatten ≤ p.y ∧ p.y ≤ maxYOf t.flatten)) ∧
    (∀ t : Region, ∀ q ∈ t.flatten,
      minXOf t.flatten ≤ q.x ∧ q.x ≤ maxXOf t.flatten ∧
      minYOf t.flatten ≤ q.y ∧ q.y ≤ maxYOf t.flatten) :=
  ⟨fun n h => memberIdx_some_spec p regions n h,
   memberIdx_none_spec p regions,
   fun t ht => insideTable_iff t p ht,
   fun t => boundsOf_points t.flatten⟩

/-- Witness for C4 at the demo table and point (5, 5): the first conjunct
applied with the concrete membership result, and the inclusive-edges
equivalence at the concrete region. -/
theorem claim_c4_witness :
    (0 < demoRegions.length ∧
      isPointInsideTable ⟨5, 5⟩ (demoRegions.getD 0 []) = true) ∧
    (isPointInsideTable ⟨20, 20⟩ (demoRegions.getD 0 []) = true ↔
      minXOf (demoRegions.getD 0 []).flatten ≤ 20 ∧
      (20 : Int) ≤ maxXOf (demoRegions.getD 0 []).flatten ∧
      minYOf (demoRegions.getD 0 []).flatten ≤ 20 ∧
      (20 : Int) ≤ maxYOf (demoRegions.getD 0 []).flatten) := by
  have h1 := (claim_c4 demoRegions ⟨5, 5⟩).1 0 (by decide)
  have h2 := (claim_c4 demoRegions ⟨20, 20⟩).2.2.1 (demoRegions.getD 0 []) (by decide)
  exact ⟨⟨h1.1, h1.2.1⟩, h2⟩

/-! Helper lemmas for the zero-region serialization argument. -/

theorem all_ite (c : Prop) [Decidable c] (l₁ l₂ : List Tok) (f : Tok → Bool) :
    ((if c then l₁ else l₂).all f) = if c then l₁.all f else l₂.all f := by
  split_ifs <;> rfl

theorem countP_ite (c : Prop) [Decidable c] (l₁ l₂ : List Tok) (f : Tok → Bool) :
    ((if c then l₁ else l₂).countP f) = if c then l₁.countP f else l₂.countP f := by
  split_ifs <;> rfl

theorem mkDirToks_all_nontable (b : Bool) (w : Word) :
    ((mkDirToks b w).all fun t => !isTableTok t) = true := by
  cases hd : w.dir <;> cases b <;> simp [mkDirToks, hd, isTableTok]

theorem mkDirToks_countP_flow (b : Bool) (w : Word) :
    (mkDirToks b w).countP isFlowSpanTok = 0 := by
  cases hd : w.dir <;> cases b <;> simp [mkDirToks, hd, isFlowSpanTok]

theorem mkDirToks_mem_nontable (b : Bool) (w : Word) :
    ∀ t ∈ mkDirToks b w, isTableTok t = false := by
  cases hd : w.dir <;> cases b <;> simp [mkDirToks, hd, isTableTok]

theorem isTableTok_openBlock (p b : Nat) (bx : BBox) :
    isTableTok (Tok.openBlock p b bx) = false := rfl

theorem isTableTok_openP (p pc : Nat) (r : Bool) (lg : Option String) (bx : BBox) :
    isTableTok (Tok.openP p pc r lg bx) = false := rfl

theorem isTableTok_openLine (p lc : Nat) (bx : BBox) :
    isTableTok (Tok.openLine p lc bx) = false := rfl

theorem isTableTok_closeLine : isTableTok Tok.closeLine = false := rfl

theorem isTableTok_closeP : isTableTok Tok.closeP = false := rfl

theorem isTableTok_closeBlock : isTableTok Tok.closeBlock = false := rfl

theorem isFlowSpanTok_openBlock (p b : Nat) (bx : BBox) :
    isFlowSpanTok (Tok.openBlock p b bx) = false := rfl

theorem isFlowSpanTok_openP (p pc : Nat) (r : Bool) (lg : Option String) (bx : BBox) :
    isFlowSpanTok (Tok.openP p pc r lg bx) = false := rfl

theorem isFlowSpanTok_openLine (p lc : Nat) (bx : BBox) :
    isFlowSpanTok (Tok.openLine p lc bx) = false := rfl

theorem isFlowSpanTok_closeLine : isFlowSpanTok Tok.closeLine = false := rfl

theorem isFlowSpanTok_closeP : isFlowSpanTok Tok.closeP = false := rfl

theorem isFlowSpanTok_closeBlock : isFlowSpanTok Tok.closeBlock = false := rfl

theorem isFlowSpanTok_mkFlowSpan (pl : Option String) (fi : Bool) (w : Word) :
    isFlowSpanTok (mkFlowSpan pl fi w) = true := rfl

theorem isTableTok_mkFlowSpan (pl : Option String) (fi : Bool) (w : Word) :
    isTableTok (mkFlowSpan pl fi w) = false := rfl

theorem wordStep_empty (fi : Bool) (pid : Nat) (xss yss : List (List Int))
    (st : SState) (w : Word) (h : st.prevTable = -1) :
    (wordStep fi pid [] xss yss st w).1.prevTable = -1 ∧
    ((wordStep fi pid [] xss yss st w).2.all fun t => !isTableTok t) = true ∧
    (wordStep fi pid [] xss yss st w).2.countP isFlowSpanTok =
      (if isBlank w.text then 0 else 1) := by
  cases hb : isBlank w.text
  · have hm : memberIdx []
        (⟨(w.left + w.right) / 2, (w.top + w.bottom) / 2⟩ : Pt) = none := rfl
    cases hbb : w.isBeginBlock <;>
      simp [wordStep, hb, hbb, hm, h, List.all_append, List.countP_append,
        all_ite, countP_ite, mkDirToks_all_nontable, mkDirToks_countP_flow,
        isFlowSpanTok_mkFlowSpan, isTableTok_mkFlowSpan,
        isTableTok_openBlock, isTableTok_openP, isTableTok_openLine,
        isTableTok_closeLine, isTableTok_closeP, isTableTok_closeBlock,
        isFlowSpanTok_openBlock, isFlowSpanTok_openP, isFlowSpanTok_openLine,
        isFlowSpanTok_closeLine, isFlowSpanTok_closeP, isFlowSpanTok_closeBlock,
        apply_ite SState.prevTable, -List.all_eq_true]
  · simp [wordStep, hb, h]

theorem serializeWords_empty (fi : Bool) (pid : Nat) (xss yss : List (List Int)) :
    ∀ (ws : List Word) (st : SState), st.prevTable = -1 →
      ((serializeWords fi pid [] xss yss st ws).all fun t => !isTableTok t) = true ∧
      (serializeWords fi pid [] xss yss st ws).countP isFlowSpanTok =
        (ws.filter (fun w => !isBlank w.text)).length := by
  intro ws
  induction ws with
  | nil => intro st _; simp [serializeWords]
  | cons w ws ih =>
    intro st h
    have hw := wordStep_empty fi pid xss yss st w h
    have hrest := ih (wordStep fi pid [] xss yss st w).1 hw.1
    have hser : serializeWords fi pid [] xss yss st (w :: ws) =
        (wordStep fi pid [] xss yss st w).2 ++
          serializeWords fi pid [] xss yss (wordStep fi pid [] xss yss st w).1 ws := rfl
    rw [hser]
    constructor
    · rw [List.all_append, hw.2.1, hrest.1]
      rfl
    · rw [List.countP_append, hw.2.2, hrest.2, List.filter_cons]
      cases hbw : isBlank w.text <;> simp [hbw]
      omega

/-- Claim C2: a page image that fails to load yields zero table regions
(the candidate loop runs on no contours and returns the empty list rather
than aborting), membership resolves to none for every point, and during
serialization every non-blank word takes the no-table flow path: the token
stream holds no table markup and exactly one flow word span per non-blank
word. -/
theorem claim_c2 :
    extractTableJointsLoad none = [] ∧
    (∀ x y : Int, memberIdx (extractTableJointsLoad none) ⟨x, y⟩ = none) ∧
    (∀ (f : String) (pn : Nat) (rl rt rw rh : Int) (fi : Bool) (words : List Word),
      ((getAbbyyTokens (some f) none pn rl rt rw rh fi words).all
          fun t => !isTableTok t) = true ∧
      (getAbbyyTokens (some f) none pn rl rt rw rh fi words).countP isFlowSpanTok =
        (words.filter (fun w => !isBlank w.text)).length) := by
  refine ⟨rfl, fun x y => rfl, fun f pn rl rt rw rh fi words => ?_⟩
  have h := serializeWords_empty fi (pn + 1) [] [] words initState rfl
  have htoks : getAbbyyTokens (some f) none pn rl rt rw rh fi words =
      Tok.pageOpenTag (pn + 1) :: Tok.filenameText f ::
        Tok.pageAttrs rl rt rw rh pn ::
        (serializeWords fi (pn + 1) [] [] [] initState words ++
          [Tok.closePageDiv]) := rfl
  rw [htoks]
  constructor
  · simp only [List.all_cons, List.all_append, h.1]
    rfl
  · simp only [List.countP_cons, List.countP_append, h.2]
    simp [isFlowSpanTok]

/-- Claim C1, evaluated at the failing input (one non-blank word whose
center lies inside the single detected table): the emitted stream is not
well-formed.  A `</table></tbody>` pair is emitted before any table was
opened (it appears before the first `<table>`), and the opened
`<tbody>`, `<tr>` and `<td>` are never closed before the block div and the
document end. -/
theorem claim_c1_code_bug :
    wellFormed demoToksA = false ∧
    (demoToksA.takeWhile (fun t => !(t == Tok.openTableT))).contains Tok.closeTableT = true ∧
    demoToksA.count Tok.openTableT = 1 ∧ demoToksA.count Tok.closeTableT = 1 ∧
    demoToksA.count Tok.openTbodyT = 1 ∧ demoToksA.count Tok.closeTbodyT = 1 ∧
    demoToksA.count Tok.openTr = 1 ∧ demoToksA.count Tok.closeTr = 0 ∧
    demoToksA.count Tok.openTd = 1 ∧ demoToksA.count Tok.closeTd = 0 ∧
    demoToksA.countP isTableSpanTok = 1 := by
  decide

/-- Counterexample for C9 as stated: `demoWordB` is a non-blank in-table
word whose language is set (and differs from the unset paragraph language),
whose font name is available while font output is enabled, and whose
right-to-left direction diverges from the left-to-right paragraph default;
yet its emitted span (the only word span of the stream) carries no language
attribute, no font-name attribute, and no direction marker is emitted. -/
theorem claim_c9_cex :
    demoWordB.lang = some "deu" ∧ demoWordB.fontName = some "Arial" ∧
    demoWordB.dir = WDir.rtl ∧ initState.paraLang = none ∧
    initState.paraIsLtr = true ∧ isBlank demoWordB.text = false ∧
    demoToksB.countP isTableSpanTok = 1 ∧
    (demoToksB.all fun t => !hasLangAttr t && !hasFontAttr t && !isDirTok t) = true := by
  decide

/-- Claim C9, amended: a flow (outside-table) word span carries confidence,
dictionary and numeric flags, a language attribute exactly when the word's
language is present and differs from the paragraph's, a font-name attribute
exactly when font output is enabled and a name is available, and a
direction marker follows exactly when the word's direction diverges from
the paragraph default; an in-table word span carries confidence, dictionary
and numeric flags but never a language attribute, a font-name attribute or
a direction marker. -/
theorem claim_c9 (w : Word) (paraLang : Option String) (paraLtr fi : Bool) :
    spanConf (mkFlowSpan paraLang fi w) = some w.conf ∧
    spanDict (mkFlowSpan paraLang fi w) = some w.dict ∧
    spanNumeric (mkFlowSpan paraLang fi w) = some w.numeric ∧
    spanLang (mkFlowSpan paraLang fi w) =
      (if w.lang ≠ none ∧ w.lang ≠ paraLang then w.lang else none) ∧
    spanFont (mkFlowSpan paraLang fi w) =
      (if fi = true ∧ w.fontName ≠ none then w.fontName else none) ∧
    mkDirToks paraLtr w =
      (if (w.dir = WDir.ltr ∧ paraLtr = false) ∨ (w.dir = WDir.rtl ∧ paraLtr = true)
       then [Tok.dirMarker (decide (w.dir = WDir.ltr))] else []) ∧
    spanConf (mkTableSpan w) = some w.conf ∧
    spanDict (mkTableSpan w) = some w.dict ∧
    spanNumeric (mkTableSpan w) = some w.numeric ∧
    spanLang (mkTableSpan w) = none ∧
    spanFont (mkTableSpan w) = none ∧
    isDirTok (mkTableSpan w) = false := by
  refine ⟨rfl, rfl, rfl, ?_, ?_, ?_, rfl, rfl, rfl, rfl, rfl, rfl⟩
  · cases hl : w.lang with
    | none => simp [mkFlowSpan, spanLang, hl]
    | some l =>
      by_cases hp : paraLang = some l
      · simp [mkFlowSpan, spanLang, hl, hp]
      · simp [mkFlowSpan, spanLang, hl, hp]
        intro h
        exact absurd h.symm hp
  · cases fi with
    | false => simp [mkFlowSpan, spanFont]
    | true =>
      cases hf : w.fontName with
      | none => simp [mkFlowSpan, spanFont, hf]
      | some f => simp [mkFlowSpan, spanFont, hf]
  · cases hd : w.dir <;> cases hp : paraLtr <;> simp [mkDirToks, hd]

/-! Helper lemmas for the no-input-file output string. -/

theorem toDigitsCore_digits :
    ∀ (fuel n : Nat) (ds : List Char), (∀ c ∈ ds, c.isDigit = true) →
      ∀ c ∈ Nat.toDigitsCore 10 fuel n ds, c.isDigit = true := by
  intro fuel
  induction fuel with
  | zero => intro n ds h c hc; exact h c hc
  | succ fuel ih =>
    intro n ds h c hc
    have hd : (Nat.digitChar (n % 10)).isDigit = true := by
      have h10 : n % 10 < 10 := Nat.mod_lt _ (by norm_num)
      set m := n % 10 with hm
      interval_cases m <;> rfl
    rw [show Nat.toDigitsCore 10 (fuel + 1) n ds =
        (if n / 10 = 0 then Nat.digitChar (n % 10) :: ds
         else Nat.toDigitsCore 10 fuel (n / 10) (Nat.digitChar (n % 10) :: ds))
      from rfl] at hc
    by_cases h0 : n / 10 = 0
    · rw [if_pos h0] at hc
      rcases List.mem_cons.1 hc with rfl | hc
      · exact hd
      · exact h c hc
    · rw [if_neg h0] at hc
      refine ih (n / 10) _ ?_ c hc
      intro c' hc'
      rcases List.mem_cons.1 hc' with rfl | hc'
      · exact hd
      · exact h c' hc'

theorem repr_data_digits (n : Nat) : ∀ c ∈ (Nat.repr n).data, c.isDigit = true := by
  intro c hc
  have hrepr : (Nat.repr n).data = Nat.toDigitsCore 10 (n + 1) n [] := rfl
  rw [hrepr] at hc
  exact toDigitsCore_digits (n + 1) n [] (by simp) c hc

theorem count_repr_eq_zero (n : Nat) (ch : Char) (hch : ch.isDigit = false) :
    (Nat.repr n).data.count ch = 0 := by
  rw [List.count_eq_zero]
  intro hmem
  have hdig := repr_data_digits n ch hmem
  rw [hch] at hdig
  exact absurd hdig (by simp)

theorem str_data_append (a b : String) : (a ++ b).data = a.data ++ b.data := rfl

/-- Claim C10: with no input file name set, `GetAbbyyText` (with an
initialized recognizer) returns a non-null string that consists only of the
page-div opening text with filename value `unknown` — independently of the
word stream and the image — with exactly one tag opener `<`, no tag
terminator `>` at all (so the page div element never completes), and an odd
number of single quotes (so the filename attribute quote is left open). -/
theorem claim_c10 (load : Option (List Candidate)) (pn : Nat) (rl rt rw rh : Int)
    (fi : Bool) (words : List Word) :
    getAbbyyText true none load pn rl rt rw rh fi words =
      some ("  <div class=\x27page\x27 id=\x27page_" ++ Nat.repr (pn + 1) ++
        "\x27 filename=\x27" ++ "unknown") ∧
    (renderAll (getAbbyyTokens none load pn rl rt rw rh fi words)).data.count '<' = 1 ∧
    (renderAll (getAbbyyTokens none load pn rl rt rw rh fi words)).data.count '>' = 0 ∧
    (renderAll (getAbbyyTokens none load pn rl rt rw rh fi words)).data.count '\x27' % 2 = 1 := by
  have he : renderAll (getAbbyyTokens none load pn rl rt rw rh fi words) =
      "  <div class=\x27page\x27 id=\x27page_" ++ Nat.repr (pn + 1) ++
        "\x27 filename=\x27" ++ "unknown" := rfl
  refine ⟨by rw [show getAbbyyText true none load pn rl rt rw rh fi words =
      some (renderAll (getAbbyyTokens none load pn rl rt rw rh fi words)) from rfl, he],
    ?_, ?_, ?_⟩ <;>
  · rw [he, str_data_append, str_data_append, str_data_append,
      List.count_append, List.count_append, List.count_append,
      count_repr_eq_zero (pn + 1) _ (by decide)]
    decide

end TaigerTess
